import Mathlib

/-!
Verification of the ESP32 electronic voting machine firmware
(`src/code/evm/evm.ino`) against its natural-language specification.

The firmware is shallowly embedded: the EEPROM is a byte-addressed store
`Nat → Nat` (every write truncates to a byte, as the hardware does), the
in-memory election state is a structure, and each interactive loop of the
firmware is embedded as a step function on that state.  Machine integers
are modelled as `Nat` (the 16-bit EEPROM values) or `Int` (the signed
`int` temporaries), with truncation made explicit where the C code
truncates.
-/

set_option maxRecDepth 40000

namespace EVM

/-- The EEPROM, byte-addressed.  `EEPROM.begin(512)` gives 512 usable
bytes; values stored are always bytes (`EEPROM.write` takes `uint8_t`). -/
def Store : Type := Nat → Nat

/-- `EEPROM.write(address, value)`: the `uint8_t` parameter truncates the
written value to a byte. -/
def EEPROMwrite (s : Store) (address value : Nat) : Store :=
  fun a => if a = address then value % 256 else s a

/-- `EEPROM.read(address)`: returns the byte at `address`. -/
def EEPROMread (s : Store) (address : Nat) : Nat :=
  s address

/-- A well-formed store holds a byte (< 256) at every address of the
512-byte EEPROM region the sketch configures. -/
def WFStore (s : Store) : Prop :=
  ∀ a, a < 512 → s a < 256

instance (s : Store) : Decidable (WFStore s) := by
  unfold WFStore
  infer_instance

/-- `writeIntToEEPROM`, parameterised by the physical one-byte write
primitive so that storage faults can be modelled (the real hardware is
`EEPROMwrite`; a faulty part may store something else).  The source
splits the value into `value & 0xFF` and `value >> 8` and writes the two
bytes. -/
def writeIntToEEPROMWith (phys : Store → Nat → Nat → Store) (s : Store)
    (address value : Nat) : Store :=
  phys (phys s address (value &&& 255)) (address + 1) (value >>> 8)

/-- `writeIntToEEPROM(address, value)` from the source: lower byte at
`address`, upper byte at `address + 1`, on the real EEPROM. -/
def writeIntToEEPROM (s : Store) (address value : Nat) : Store :=
  writeIntToEEPROMWith EEPROMwrite s address value

/-- `readIntFromEEPROM(address)` from the source:
`(upperByte << 8) | lowerByte`. -/
def readIntFromEEPROM (s : Store) (address : Nat) : Nat :=
  let lowerByte := EEPROMread s address
  let upperByte := EEPROMread s (address + 1)
  (upperByte <<< 8) ||| lowerByte

/-- `all_votes_count()` from the source: sum of the six 16-bit vote
counts stored at addresses `300, 302, ..., 310`. -/
def all_votes_count (s : Store) : Nat :=
  [0, 1, 2, 3, 4, 5].foldl (fun vote_t i => vote_t + readIntFromEEPROM s (300 + i * 2)) 0

/- ### Bitwise bridge lemmas -/

theorem land_255_eq_mod (v : Nat) : v &&& 255 = v % 256 := by
  have h := Nat.and_pow_two_sub_one_eq_mod v 8
  norm_num at h
  exact h

theorem shiftRight_8_eq_div (v : Nat) : v >>> 8 = v / 256 := by
  have h := Nat.shiftRight_eq_div_pow v 8
  norm_num at h
  exact h

theorem shiftLeft_8_eq_mul (v : Nat) : v <<< 8 = v * 256 := by
  have h := Nat.shiftLeft_eq v 8
  norm_num at h
  exact h

/-- Recombining a high byte and a low byte with `(hi <<< 8) ||| lo` is
plain arithmetic when the low byte is in range. -/
theorem shiftLeft_or_eq_add (u l : Nat) (hl : l < 256) :
    (u <<< 8) ||| l = u * 256 + l := by
  apply Nat.eq_of_testBit_eq
  intro i
  rw [Nat.testBit_lor, Nat.testBit_shiftLeft]
  rcases Nat.lt_or_ge i 8 with hi | hi
  · have h8 : ¬ (8 ≤ i) := by omega
    rw [decide_eq_false h8, Bool.false_and, Bool.false_or]
    have hdiv : (u * 256 + l) / 2 ^ i = l / 2 ^ i + u * 2 ^ (7 - i) * 2 := by
      have hpow : (2 : Nat) ^ i * (2 ^ (7 - i) * 2) = 256 := by
        rw [← Nat.pow_succ, ← Nat.pow_add]
        have h78 : i + (7 - i + 1) = 8 := by omega
        rw [h78]
      calc (u * 256 + l) / 2 ^ i
          = (l + u * (2 ^ (7 - i) * 2) * 2 ^ i) / 2 ^ i := by
            rw [show u * (2 ^ (7 - i) * 2) * 2 ^ i = u * (2 ^ i * (2 ^ (7 - i) * 2)) by ring,
              hpow]
            ring_nf
        _ = l / 2 ^ i + u * (2 ^ (7 - i) * 2) := by
            rw [Nat.add_mul_div_right _ _ (Nat.two_pow_pos i)]
        _ = l / 2 ^ i + u * 2 ^ (7 - i) * 2 := by ring
    rw [Nat.testBit_to_div_mod, Nat.testBit_to_div_mod, hdiv, Nat.add_mul_mod_self_right]
  · rw [decide_eq_true hi, Bool.true_and]
    have hlf : l.testBit i = false := by
      apply Nat.testBit_lt_two_pow
      calc l < 256 := hl
        _ = 2 ^ 8 := by norm_num
        _ ≤ 2 ^ i := Nat.pow_le_pow_right (by norm_num) hi
    rw [hlf, Bool.or_false]
    have hdiv : (u * 256 + l) / 2 ^ i = u / 2 ^ (i - 8) := by
      have hi8 : (2 : Nat) ^ i = 256 * 2 ^ (i - 8) := by
        rw [show (256 : Nat) = 2 ^ 8 by norm_num, ← Nat.pow_add]
        congr 1
        omega
      rw [hi8, ← Nat.div_div_eq_div_mul]
      congr 1
      rw [Nat.mul_comm u 256, Nat.mul_add_div (by norm_num : (0 : Nat) < 256)]
      have hl0 : l / 256 = 0 := Nat.div_eq_of_lt hl
      omega
    rw [Nat.testBit_to_div_mod, Nat.testBit_to_div_mod, hdiv]

/- ### Read / write laws of the 16-bit EEPROM helpers -/

theorem EEPROMwrite_same (s : Store) (address value : Nat) :
    EEPROMwrite s address value address = value % 256 := by
  simp [EEPROMwrite]

theorem EEPROMwrite_other (s : Store) (address value a : Nat) (h : a ≠ address) :
    EEPROMwrite s address value a = s a := by
  simp [EEPROMwrite, h]

/-- Write-then-read round trip for 16-bit values in range. -/
theorem readInt_writeInt_same (s : Store) (address value : Nat) (hv : value < 65536) :
    readIntFromEEPROM (writeIntToEEPROM s address value) address = value := by
  unfold readIntFromEEPROM writeIntToEEPROM writeIntToEEPROMWith EEPROMread
  have h1 : EEPROMwrite (EEPROMwrite s address (value &&& 255)) (address + 1) (value >>> 8) address
      = value % 256 := by
    rw [EEPROMwrite_other _ _ _ _ (by omega), EEPROMwrite_same, land_255_eq_mod,
      Nat.mod_mod_of_dvd _ (by norm_num)]
  have h2 : EEPROMwrite (EEPROMwrite s address (value &&& 255)) (address + 1) (value >>> 8) (address + 1)
      = value / 256 := by
    rw [EEPROMwrite_same, shiftRight_8_eq_div, Nat.mod_eq_of_lt (by omega)]
  simp only [h1, h2]
  rw [shiftLeft_or_eq_add _ _ (Nat.mod_lt _ (by norm_num))]
  omega

/-- A write of a 16-bit value touches only its two byte addresses. -/
theorem writeInt_frame (s : Store) (address value a : Nat)
    (h1 : a ≠ address) (h2 : a ≠ address + 1) :
    writeIntToEEPROM s address value a = s a := by
  unfold writeIntToEEPROM writeIntToEEPROMWith
  rw [EEPROMwrite_other _ _ _ _ h2, EEPROMwrite_other _ _ _ _ h1]

theorem readInt_congr (s s2 : Store) (address : Nat)
    (h1 : s2 address = s address) (h2 : s2 (address + 1) = s (address + 1)) :
    readIntFromEEPROM s2 address = readIntFromEEPROM s address := by
  unfold readIntFromEEPROM EEPROMread
  rw [h1, h2]

/-- Reading a 16-bit value from a well-formed region is below 2^16. -/
theorem readInt_lt (s : Store) (address : Nat) (hlo : s address < 256)
    (hhi : s (address + 1) < 256) :
    readIntFromEEPROM s address < 65536 := by
  unfold readIntFromEEPROM EEPROMread
  rw [shiftLeft_or_eq_add _ _ hlo]
  omega

theorem WFStore_EEPROMwrite (s : Store) (address value : Nat) (h : WFStore s) :
    WFStore (EEPROMwrite s address value) := by
  intro a ha
  unfold EEPROMwrite
  split
  · exact Nat.mod_lt _ (by norm_num)
  · exact h a ha

theorem WFStore_writeInt (s : Store) (address value : Nat) (h : WFStore s) :
    WFStore (writeIntToEEPROM s address value) :=
  WFStore_EEPROMwrite _ _ _ (WFStore_EEPROMwrite _ _ _ h)

/- ### Device state -/

/-- The mutable state the firmware keeps: the EEPROM contents, the
in-memory `enabledCandidates` array, and the voting booth's
`inputLocked` session lock (`false` on entering the booth). -/
structure DeviceState where
  store : Store
  enabledCandidates : Nat → Bool
  inputLocked : Bool

/-- What one iteration of the `showVotingMenu` loop does besides
updating the state: which screen/outcome the voter sees. -/
inductive BoothEvent where
  | voteRecorded (candidateIndex : Nat)
  | storageError
  | candidateDisabled
  | voteBoxFull
  | unlockRequested
  | noEvent
deriving DecidableEq

/-- Result of one iteration of the `showVotingMenu` key loop.  `done`
mirrors the loop's `done` flag; no statement in the loop body ever sets
it, so the booth is never exited. -/
structure BoothStepResult where
  state : DeviceState
  event : BoothEvent
  done : Bool

/-- One iteration of the key-handling loop of `showVotingMenu`,
parameterised by the physical byte-write primitive `phys` (the healthy
EEPROM is `EEPROMwrite`; other values of `phys` model storage faults
caught by the write-verify read-back).  Faithful to the source: `avc`
and `mvc` are recomputed fresh each iteration, a digit `1`..`6` is
processed only while `inputLocked` is false, and the verification
failure branch keeps the (failed) write and `continue`s without
retrying. -/
def boothStepWith (phys : Store → Nat → Nat → Store) (st : DeviceState)
    (key : Char) : BoothStepResult :=
  let avc := all_votes_count st.store
  let mvc := readIntFromEEPROM st.store 200
  if ('1' ≤ key ∧ key ≤ '6') ∧ st.inputLocked = false then
    let candidateIndex := key.toNat - 49
    let candidateAddress := 300 + candidateIndex * 2
    if st.enabledCandidates candidateIndex = true ∧ avc < mvc then
      let currentVote := readIntFromEEPROM st.store candidateAddress + 1
      let store2 := writeIntToEEPROMWith phys st.store candidateAddress currentVote
      let savedValue := readIntFromEEPROM store2 candidateAddress
      if savedValue ≠ currentVote then
        ⟨{ st with store := store2 }, .storageError, false⟩
      else
        ⟨{ st with store := store2, inputLocked := true }, .voteRecorded candidateIndex, false⟩
    else if st.enabledCandidates candidateIndex = false then
      ⟨st, .candidateDisabled, false⟩
    else
      ⟨st, .voteBoxFull, false⟩
  else if key = '*' then
    ⟨{ st with inputLocked := false }, .unlockRequested, false⟩
  else
    ⟨st, .noEvent, false⟩

/-- The booth loop on the healthy EEPROM. -/
def boothStep (st : DeviceState) (key : Char) : BoothStepResult :=
  boothStepWith EEPROMwrite st key

/-- Folding a sequence of key presses through the booth loop. -/
def boothRun (st : DeviceState) (keys : List Char) : DeviceState :=
  keys.foldl (fun s k => (boothStep s k).state) st

/- ### Admin operations -/

/-- One key of the `enableCandidates` loop: digits `1`..`6` toggle the
in-memory flag and persist it (1 = enabled, 0 = disabled) at
`100 + candidateIndex`. -/
def enableCandidatesStep (st : DeviceState) (key : Char) : DeviceState :=
  if '1' ≤ key ∧ key ≤ '6' then
    let candidateIndex := key.toNat - 49
    let newState := ! st.enabledCandidates candidateIndex
    { st with
      enabledCandidates := fun j => if j = candidateIndex then newState else st.enabledCandidates j,
      store := EEPROMwrite st.store (100 + candidateIndex) (if newState then 1 else 0) }
  else st

/-- Two-complement wrap of a mathematical integer into a 32-bit signed
`int`, for the `tempMaxVoters` accumulator of `setMaxVoters`. -/
def wrap32 (x : Int) : Int :=
  (x + 2147483648) % 4294967296 - 2147483648

/-- The digit-accumulation loop of `setMaxVoters`:
`tempMaxVoters = tempMaxVoters * 10 + (key - '0')` on a C `int`. -/
def setMaxVotersAccumulate (keys : List Char) : Int :=
  keys.foldl
    (fun tempMaxVoters key =>
      if '0' ≤ key ∧ key ≤ '9' then wrap32 (tempMaxVoters * 10 + ((key.toNat : Int) - 48))
      else tempMaxVoters)
    0

/-- The value `setMaxVoters` commits on `#`: the accumulated value if it
lies in `[1, 65535]`, else `65535`. -/
def capCommitValue (keys : List Char) : Nat :=
  let tempMaxVoters := setMaxVotersAccumulate keys
  if 1 ≤ tempMaxVoters ∧ tempMaxVoters ≤ 65535 then tempMaxVoters.toNat else 65535

/-- `setMaxVoters`, as a whole: digits entered, then `#` commits the
clamped value to EEPROM address 200. -/
def setMaxVotersCommit (st : DeviceState) (keys : List Char) : DeviceState :=
  { st with store := writeIntToEEPROM st.store 200 (capCommitValue keys) }

/-- Default maximum voters (`default_maxVoters`). -/
def default_maxVoters : Nat := 100

/-- The store transformation of `resetEEPROM`: for each slot, enabled
flag at `100 + i` set to 1 and 16-bit count at `300 + 2 i` set to 0,
then `maxVoters` at 200 set to the default.  (The in-memory
`enabledCandidates` array is NOT updated by the source.) -/
def resetEEPROMStore (s : Store) : Store :=
  let s1 := [0, 1, 2, 3, 4, 5].foldl
    (fun acc i => writeIntToEEPROM (EEPROMwrite acc (i + 100) 1) (300 + i * 2) 0) s
  writeIntToEEPROM s1 200 default_maxVoters

/-- `resetEEPROM` as a device operation. -/
def resetEEPROMOp (st : DeviceState) : DeviceState :=
  { st with store := resetEEPROMStore st.store }

/- ### Power-on loading (`setup`) -/

/-- `setup`: `enabledCandidates[i] = EEPROM.read(i + 100)` (C++ converts
a nonzero byte to `true`). -/
def setupEnabled (s : Store) (i : Nat) : Bool :=
  EEPROMread s (i + 100) != 0

/-- `setup`: `votes[i] = EEPROM.read(i + 300)` — note that the source
reads a SINGLE BYTE at address `300 + i` here. -/
def setupVotes (s : Store) (i : Nat) : Nat :=
  EEPROMread s (i + 300)

/-- `setup`: `maxVoters = readIntFromEEPROM(200)`. -/
def setupMaxVoters (s : Store) : Nat :=
  readIntFromEEPROM s 200

/- ### Whole-device operations and reachability -/

/-- The operations of the menu state machine that touch election state.
Menu navigation (and the power cycle needed to get from the booth back
to the admin menu) carries no election data of its own, so an execution
of the device is a sequence of these operations. -/
inductive DeviceOp where
  | boothKey (key : Char)
  | adminToggleKey (key : Char)
  | setCapKeys (keys : List Char)
  | resetOp
  | powerCycle

def applyOp (st : DeviceState) (op : DeviceOp) : DeviceState :=
  match op with
  | .boothKey key => (boothStep st key).state
  | .adminToggleKey key => enableCandidatesStep st key
  | .setCapKeys keys => setMaxVotersCommit st keys
  | .resetOp => resetEEPROMOp st
  | .powerCycle =>
    { store := st.store, enabledCandidates := setupEnabled st.store, inputLocked := false }

def runOps (st : DeviceState) (ops : List DeviceOp) : DeviceState :=
  ops.foldl applyOp st

/-- The all-zero (factory-erased) EEPROM. -/
def emptyStore : Store := fun _ => 0

/-- The initial state of the model: a freshly reset election (all
counts 0, all candidates enabled, cap at the default), as `setup` loads
it. -/
def initState : DeviceState :=
  { store := resetEEPROMStore emptyStore
    enabledCandidates := setupEnabled (resetEEPROMStore emptyStore)
    inputLocked := false }

/-- A device state reachable by some sequence of operations from the
initial state. -/
def ReachableState (st : DeviceState) : Prop :=
  ∃ ops, st = runOps initState ops

/- ### Authentication gate (`showPasswordBox`) -/

/-- `correctPassword = "1101"`. -/
def correctPassword : List Char := ['1', '1', '0', '1']

inductive AuthOutcome where
  | granted
  | rejectedBadLength
  | rejectedWrongCode
deriving DecidableEq

structure ConfirmResult where
  outcome : AuthOutcome
  buffer : List Char
  callbackInvoked : Bool
deriving DecidableEq

/-- The `key == '*'` (confirm) branch of `showPasswordBox`: length must
be exactly 4, then the buffer is compared with `correctPassword`; on
success the caller-supplied callback runs, on either failure the buffer
is cleared and the loop continues. -/
def passwordConfirm (enteredPassword : List Char) : ConfirmResult :=
  if enteredPassword.length = 4 then
    if enteredPassword = correctPassword then
      ⟨.granted, enteredPassword, true⟩
    else
      ⟨.rejectedWrongCode, [], false⟩
  else
    ⟨.rejectedBadLength, [], false⟩

/-- The digit branch of `showPasswordBox` (a key other than `*` and
`#`): appended only if the buffer holds fewer than 8 characters and the
key is in the character range `'0'`..`'6'`. -/
def passwordDigitStep (enteredPassword : List Char) (key : Char) : List Char :=
  if enteredPassword.length < 8 ∧ '0' ≤ key ∧ key ≤ '6' then
    enteredPassword ++ [key]
  else enteredPassword

/- ### Results screen (`showResults`) -/

/-- The `maxVotes` / `winner` scan of `showResults`: `winner` starts at
-1 and follows strict improvements of `maxVotes`. -/
def showResultsMaxWinner (s : Store) : Nat × Int :=
  [0, 1, 2, 3, 4, 5].foldl
    (fun mw i =>
      let candidateVotes := readIntFromEEPROM s (300 + i * 2)
      if candidateVotes > mw.1 then (candidateVotes, (i : Int)) else mw)
    (0, -1)

/-- The tie scan of `showResults`: `tie` is set if some index other than
`winner` also achieves `maxVotes`. -/
def showResultsTie (s : Store) : Bool :=
  let mw := showResultsMaxWinner s
  [0, 1, 2, 3, 4, 5].foldl
    (fun tie i =>
      if readIntFromEEPROM s (300 + i * 2) = mw.1 ∧ (i : Int) ≠ mw.2 then true else tie)
    false

/-- The set of winners `showResults` displays: on a tie, every index
achieving `maxVotes`; otherwise the single `winner`. -/
def showResultsWinnerSet (s : Store) : Finset Nat :=
  let mw := showResultsMaxWinner s
  if showResultsTie s then
    (Finset.range 6).filter (fun i => readIntFromEEPROM s (300 + i * 2) = mw.1)
  else {mw.2.toNat}

/-- The voting percentage line of `showResults` computes
`(totalVotesCast * 100) / totalVotes` with C integer division, whose
behaviour at divisor 0 is a fault, not a value; the embedding therefore
returns `none` exactly when the stored cap `totalVotes` is 0. -/
def showResultsPercentage (s : Store) : Option Nat :=
  let totalVotes := readIntFromEEPROM s 200
  let totalVotesCast := all_votes_count s
  if totalVotes = 0 then none
  else some (totalVotesCast * 100 / totalVotes)

/- ### Specification-side definitions (for refinement claims) -/

/-- Modelled from the spec: `perCandidateCounts[i] = readVoteCount(i)`
for the six slots. -/
def perCandidateCounts (s : Store) : List Nat :=
  [0, 1, 2, 3, 4, 5].map (fun i => readIntFromEEPROM s (300 + i * 2))

/-- Modelled from the spec: `max(perCandidateCounts)`. -/
def maxCountSpec (s : Store) : Nat :=
  (perCandidateCounts s).foldl max 0

/-- Modelled from the spec: `winnerSet` = all indices achieving
`max(perCandidateCounts)`. -/
def winnerSetSpec (s : Store) : Finset Nat :=
  (Finset.range 6).filter (fun i => readIntFromEEPROM s (300 + i * 2) = maxCountSpec s)

/- ### Helper lemmas about keys, sums and the booth step -/

theorem char_digit_bounds (key : Char) (h : '1' ≤ key ∧ key ≤ '6') :
    49 ≤ key.toNat ∧ key.toNat ≤ 54 := by
  obtain ⟨h1, h2⟩ := h
  simp [Char.le_def] at h1 h2
  exact ⟨h1, h2⟩

theorem digit_key_ne_star (key : Char) (h : '1' ≤ key ∧ key ≤ '6') : key ≠ '*' := by
  intro heq
  have hb := char_digit_bounds key h
  rw [heq] at hb
  have : ('*' : Char).toNat = 42 := rfl
  omega

theorem all_votes_count_eq (s : Store) :
    all_votes_count s =
      readIntFromEEPROM s (300 + 0 * 2) + readIntFromEEPROM s (300 + 1 * 2) +
      readIntFromEEPROM s (300 + 2 * 2) + readIntFromEEPROM s (300 + 3 * 2) +
      readIntFromEEPROM s (300 + 4 * 2) + readIntFromEEPROM s (300 + 5 * 2) := by
  simp only [all_votes_count, List.foldl]
  omega

theorem readInt_le_all_votes (s : Store) (i : Nat) (hi : i < 6) :
    readIntFromEEPROM s (300 + i * 2) ≤ all_votes_count s := by
  rw [all_votes_count_eq]
  rcases (by omega : i = 0 ∨ i = 1 ∨ i = 2 ∨ i = 3 ∨ i = 4 ∨ i = 5) with
    rfl | rfl | rfl | rfl | rfl | rfl <;> omega

theorem readInt_writeInt_vote_frame (s : Store) (i v j : Nat) (hne : j ≠ i) :
    readIntFromEEPROM (writeIntToEEPROM s (300 + i * 2) v) (300 + j * 2)
      = readIntFromEEPROM s (300 + j * 2) := by
  apply readInt_congr
  · exact writeInt_frame _ _ _ _ (by omega) (by omega)
  · exact writeInt_frame _ _ _ _ (by omega) (by omega)

theorem all_votes_count_writeInt (s : Store) (i v : Nat) (hi : i < 6) (hv : v < 65536) :
    all_votes_count (writeIntToEEPROM s (300 + i * 2) v) + readIntFromEEPROM s (300 + i * 2)
      = all_votes_count s + v := by
  have hsame := readInt_writeInt_same s (300 + i * 2) v hv
  have hframe := readInt_writeInt_vote_frame s i v
  rw [all_votes_count_eq, all_votes_count_eq]
  rcases (by omega : i = 0 ∨ i = 1 ∨ i = 2 ∨ i = 3 ∨ i = 4 ∨ i = 5) with
    rfl | rfl | rfl | rfl | rfl | rfl
  · rw [hsame, hframe 1 (by omega), hframe 2 (by omega),
      hframe 3 (by omega), hframe 4 (by omega),
      hframe 5 (by omega)]
    omega
  · rw [hsame, hframe 0 (by omega), hframe 2 (by omega),
      hframe 3 (by omega), hframe 4 (by omega),
      hframe 5 (by omega)]
    omega
  · rw [hsame, hframe 0 (by omega), hframe 1 (by omega),
      hframe 3 (by omega), hframe 4 (by omega),
      hframe 5 (by omega)]
    omega
  · rw [hsame, hframe 0 (by omega), hframe 1 (by omega),
      hframe 2 (by omega), hframe 4 (by omega),
      hframe 5 (by omega)]
    omega
  · rw [hsame, hframe 0 (by omega), hframe 1 (by omega),
      hframe 2 (by omega), hframe 3 (by omega),
      hframe 5 (by omega)]
    omega
  · rw [hsame, hframe 0 (by omega), hframe 1 (by omega),
      hframe 2 (by omega), hframe 3 (by omega),
      hframe 4 (by omega)]
    omega

/-- When a digit is pressed in an unlocked booth for an enabled
candidate with capacity remaining, the step takes the cast path; with a
healthy EEPROM the write-verify read-back matches, so the step commits
the incremented count, reports the vote, and locks the session. -/
theorem boothStep_cast_success (st : DeviceState) (key : Char)
    (hWF : WFStore st.store)
    (hk : '1' ≤ key ∧ key ≤ '6') (hl : st.inputLocked = false)
    (he : st.enabledCandidates (key.toNat - 49) = true)
    (hcap : all_votes_count st.store < readIntFromEEPROM st.store 200) :
    boothStep st key =
      ⟨{ st with
          store := writeIntToEEPROM st.store (300 + (key.toNat - 49) * 2)
            (readIntFromEEPROM st.store (300 + (key.toNat - 49) * 2) + 1),
          inputLocked := true },
        .voteRecorded (key.toNat - 49), false⟩ := by
  have hidx : key.toNat - 49 < 6 := by
    have := char_digit_bounds key hk
    omega
  have hcv : readIntFromEEPROM st.store (300 + (key.toNat - 49) * 2) + 1 < 65536 := by
    have h1 := readInt_le_all_votes st.store _ hidx
    have h2 : readIntFromEEPROM st.store 200 < 65536 :=
      readInt_lt _ _ (hWF 200 (by omega)) (hWF 201 (by omega))
    omega
  have hsaved := readInt_writeInt_same st.store (300 + (key.toNat - 49) * 2) _ hcv
  rw [writeIntToEEPROM] at hsaved
  simp only [boothStep, boothStepWith]
  rw [if_pos ⟨hk, hl⟩, if_pos ⟨he, hcap⟩, if_neg (not_ne_iff.mpr hsaved)]
  rfl

/-- A locked booth consumes a digit key without doing anything. -/
theorem boothStep_locked_digit (st : DeviceState) (key : Char)
    (hl : st.inputLocked = true) (hk : '1' ≤ key ∧ key ≤ '6') :
    boothStep st key = ⟨st, .noEvent, false⟩ := by
  simp only [boothStep, boothStepWith]
  rw [if_neg (by simp [hl]), if_neg (digit_key_ne_star key hk)]

/-- Claim C2: in the Voting Booth, once the session lock is set, any
sequence of digit presses `1`..`6` leaves every one of the six persisted
vote counts unchanged (indeed the whole device state), and among all
keys only `*` clears the lock. -/
theorem booth_locked_ignores_digits (st : DeviceState) (hl : st.inputLocked = true)
    (keys : List Char) (hk : ∀ k ∈ keys, '1' ≤ k ∧ k ≤ '6') :
    (∀ i, i < 6 →
        readIntFromEEPROM (boothRun st keys).store (300 + i * 2)
          = readIntFromEEPROM st.store (300 + i * 2)) ∧
      (boothRun st keys).inputLocked = true ∧
      (∀ key, ((boothStep st key).state.inputLocked = false ↔ key = '*')) := by
  have hrun : boothRun st keys = st := by
    induction keys with
    | nil => rfl
    | cons k ks ih =>
      have hstep := boothStep_locked_digit st k hl (hk k (by simp))
      show boothRun (boothStep st k).state ks = st
      rw [hstep]
      exact ih (fun k2 hk2 => hk k2 (by simp [hk2]))
  refine ⟨fun i _ => by rw [hrun], by rw [hrun, hl], fun key => ?_⟩
  constructor
  · intro hunlocked
    by_contra hne
    have hc : ¬ (('1' ≤ key ∧ key ≤ '6') ∧ st.inputLocked = false) := by
      intro hcon
      rw [hcon.2] at hl
      exact Bool.false_ne_true hl
    simp only [boothStep, boothStepWith, if_neg hc, if_neg hne] at hunlocked
    rw [hl] at hunlocked
    exact absurd hunlocked (by simp)
  · intro heq
    subst heq
    have hc : ¬ ((('1' : Char) ≤ '*' ∧ ('*' : Char) ≤ '6') ∧ st.inputLocked = false) := by
      intro hcon
      exact digit_key_ne_star '*' hcon.1 rfl
    simp only [boothStep, boothStepWith, if_neg hc]
    simp

/-- Claim C3: in an unlocked booth, pressing the digit of an enabled
candidate while capacity remains increments that candidate's persisted
vote count by exactly one, the verification read-back matches the
intended value, the confirmation is displayed, the session lock is set,
and the booth is not exited. -/
theorem vote_cast_success (st : DeviceState) (key : Char)
    (hWF : WFStore st.store)
    (hk : '1' ≤ key ∧ key ≤ '6') (hl : st.inputLocked = false)
    (he : st.enabledCandidates (key.toNat - 49) = true)
    (hcap : all_votes_count st.store < readIntFromEEPROM st.store 200) :
    readIntFromEEPROM (boothStep st key).state.store (300 + (key.toNat - 49) * 2)
        = readIntFromEEPROM st.store (300 + (key.toNat - 49) * 2) + 1 ∧
      (boothStep st key).event = .voteRecorded (key.toNat - 49) ∧
      (boothStep st key).state.inputLocked = true ∧
      (boothStep st key).done = false := by
  have hidx : key.toNat - 49 < 6 := by
    have := char_digit_bounds key hk
    omega
  have hcv : readIntFromEEPROM st.store (300 + (key.toNat - 49) * 2) + 1 < 65536 := by
    have h1 := readInt_le_all_votes st.store _ hidx
    have h2 : readIntFromEEPROM st.store 200 < 65536 :=
      readInt_lt _ _ (hWF 200 (by omega)) (hWF 201 (by omega))
    omega
  rw [boothStep_cast_success st key hWF hk hl he hcap]
  exact ⟨readInt_writeInt_same _ _ _ hcv, rfl, rfl, rfl⟩

/-- Claim C9: a successful vote cast for candidate `i` changes only the
two bytes of that candidate's persisted count; every other candidate's
count, all six persisted enabled flags, and the persisted voter cap are
untouched. -/
theorem vote_cast_frame (st : DeviceState) (key : Char)
    (hWF : WFStore st.store)
    (hk : '1' ≤ key ∧ key ≤ '6') (hl : st.inputLocked = false)
    (he : st.enabledCandidates (key.toNat - 49) = true)
    (hcap : all_votes_count st.store < readIntFromEEPROM st.store 200) :
    (∀ j, j < 6 → j ≠ key.toNat - 49 →
        readIntFromEEPROM (boothStep st key).state.store (300 + j * 2)
          = readIntFromEEPROM st.store (300 + j * 2)) ∧
      (∀ j, j < 6 →
        (boothStep st key).state.store (100 + j) = st.store (100 + j)) ∧
      readIntFromEEPROM (boothStep st key).state.store 200
        = readIntFromEEPROM st.store 200 ∧
      (∀ a, a ≠ 300 + (key.toNat - 49) * 2 → a ≠ 300 + (key.toNat - 49) * 2 + 1 →
        (boothStep st key).state.store a = st.store a) := by
  have hidx : key.toNat - 49 < 6 := by
    have := char_digit_bounds key hk
    omega
  rw [boothStep_cast_success st key hWF hk hl he hcap]
  refine ⟨fun j hj hne => readInt_writeInt_vote_frame _ _ _ _ hne,
    fun j hj => writeInt_frame _ _ _ _ (by omega) (by omega),
    readInt_congr _ _ _ (writeInt_frame _ _ _ _ (by omega) (by omega))
      (writeInt_frame _ _ _ _ (by omega) (by omega)),
    fun a h1 h2 => writeInt_frame _ _ _ _ h1 h2⟩

/-- Claim C7: if the write-verify read-back after a vote write does not
return the intended incremented value (any faulty physical byte-write
`phys`), the booth reports the storage error, the session stays
unlocked, no confirmation is recorded, the (single) failed write is not
retried, and the booth is not exited. -/
theorem vote_verify_failure_handling (phys : Store → Nat → Nat → Store)
    (st : DeviceState) (key : Char)
    (hk : '1' ≤ key ∧ key ≤ '6') (hl : st.inputLocked = false)
    (he : st.enabledCandidates (key.toNat - 49) = true)
    (hcap : all_votes_count st.store < readIntFromEEPROM st.store 200)
    (hfail : readIntFromEEPROM
        (writeIntToEEPROMWith phys st.store (300 + (key.toNat - 49) * 2)
          (readIntFromEEPROM st.store (300 + (key.toNat - 49) * 2) + 1))
        (300 + (key.toNat - 49) * 2)
      ≠ readIntFromEEPROM st.store (300 + (key.toNat - 49) * 2) + 1) :
    (boothStepWith phys st key).event = .storageError ∧
      (boothStepWith phys st key).state.inputLocked = false ∧
      (boothStepWith phys st key).event ≠ .voteRecorded (key.toNat - 49) ∧
      (boothStepWith phys st key).state.store
        = writeIntToEEPROMWith phys st.store (300 + (key.toNat - 49) * 2)
            (readIntFromEEPROM st.store (300 + (key.toNat - 49) * 2) + 1) ∧
      (boothStepWith phys st key).done = false := by
  simp only [boothStepWith]
  rw [if_pos ⟨hk, hl⟩, if_pos ⟨he, hcap⟩, if_pos hfail]
  exact ⟨rfl, hl, by simp, rfl, rfl⟩

theorem booth_locked_ignores_digits_witness :
    readIntFromEEPROM
        (boothRun { initState with inputLocked := true } ['1', '3', '6']).store (300 + 0 * 2)
      = readIntFromEEPROM { initState with inputLocked := true }.store (300 + 0 * 2) :=
  (booth_locked_ignores_digits { initState with inputLocked := true } rfl ['1', '3', '6']
    (by decide)).1 0 (by omega)

theorem vote_cast_success_witness :
    readIntFromEEPROM (boothStep initState '2').state.store (300 + ('2'.toNat - 49) * 2)
      = readIntFromEEPROM initState.store (300 + ('2'.toNat - 49) * 2) + 1 :=
  (vote_cast_success initState '2' (by decide) (by decide) rfl (by decide) (by decide)).1

theorem vote_cast_frame_witness :
    readIntFromEEPROM (boothStep initState '2').state.store 200
      = readIntFromEEPROM initState.store 200 :=
  (vote_cast_frame initState '2' (by decide) (by decide) rfl (by decide) (by decide)).2.2.1

theorem vote_verify_failure_handling_witness :
    (boothStepWith (fun s _ _ => s) initState '1').event = BoothEvent.storageError ∧
      (boothStepWith (fun s _ _ => s) initState '1').state.inputLocked = false :=
  let h := vote_verify_failure_handling (fun s _ _ => s) initState '1'
    (by decide) rfl (by decide) (by decide) (by decide)
  ⟨h.1, h.2.1⟩

/-- Claim C4: the gate grants exactly on buffer `"1101"`; a buffer of
length other than 4 is rejected as bad length, a length-4 buffer with
other content as wrong code; the two rejections are distinct outcomes;
the buffer is cleared after any rejection; and the supplied continuation
is invoked exactly on grant. -/
theorem password_confirm_correct (enteredPassword : List Char) :
    ((passwordConfirm enteredPassword).outcome = .granted ↔
        enteredPassword = correctPassword) ∧
      (enteredPassword.length ≠ 4 →
        (passwordConfirm enteredPassword).outcome = .rejectedBadLength) ∧
      (enteredPassword.length = 4 → enteredPassword ≠ correctPassword →
        (passwordConfirm enteredPassword).outcome = .rejectedWrongCode) ∧
      (AuthOutcome.rejectedBadLength ≠ AuthOutcome.rejectedWrongCode) ∧
      ((passwordConfirm enteredPassword).outcome ≠ .granted →
        (passwordConfirm enteredPassword).buffer = []) ∧
      ((passwordConfirm enteredPassword).callbackInvoked = true ↔
        (passwordConfirm enteredPassword).outcome = .granted) := by
  unfold passwordConfirm
  by_cases hlen : enteredPassword.length = 4
  · by_cases heq : enteredPassword = correctPassword
    · subst heq
      simp [correctPassword]
    · simp [hlen, heq]
  · have hne : enteredPassword ≠ correctPassword := by
      intro h
      subst h
      simp [correctPassword] at hlen
    simp [hlen, hne]

theorem password_confirm_correct_witness :
    (passwordConfirm ['1', '1', '0', '1']).outcome = AuthOutcome.granted ∧
      (passwordConfirm ['1', '1', '0', '2']).outcome = AuthOutcome.rejectedWrongCode ∧
      (passwordConfirm ['1', '1']).outcome = AuthOutcome.rejectedBadLength := by
  refine ⟨(password_confirm_correct ['1', '1', '0', '1']).1.mpr (by decide),
    (password_confirm_correct ['1', '1', '0', '2']).2.2.1 (by decide) (by decide),
    (password_confirm_correct ['1', '1']).2.1 (by decide)⟩

/-- Claim C8: during password entry a digit key is appended only while
the buffer holds fewer than 8 characters, and the filter accepts only
keys in `'0'..'6'`: digits `7`, `8`, `9` leave the buffer unchanged. -/
theorem password_digit_filter (enteredPassword : List Char) (key : Char) :
    (enteredPassword.length < 8 → '0' ≤ key → key ≤ '6' →
        passwordDigitStep enteredPassword key = enteredPassword ++ [key]) ∧
      (8 ≤ enteredPassword.length →
        passwordDigitStep enteredPassword key = enteredPassword) ∧
      (key = '7' ∨ key = '8' ∨ key = '9' →
        passwordDigitStep enteredPassword key = enteredPassword) := by
  unfold passwordDigitStep
  refine ⟨fun h1 h2 h3 => by rw [if_pos ⟨h1, h2, h3⟩], fun h => by rw [if_neg (by omega)],
    fun h => ?_⟩
  rcases h with rfl | rfl | rfl <;>
    · rw [if_neg]
      intro hcon
      exact absurd hcon.2.2 (by decide)

theorem password_digit_filter_witness :
    passwordDigitStep ['1'] '7' = ['1'] ∧
      passwordDigitStep ['1'] '2' = ['1', '2'] ∧
      passwordDigitStep ['0', '0', '0', '0', '0', '0', '0', '0'] '2'
        = ['0', '0', '0', '0', '0', '0', '0', '0'] := by
  refine ⟨(password_digit_filter ['1'] '7').2.2 (Or.inl rfl),
    (password_digit_filter ['1'] '2').1 (by decide) (by decide) (by decide),
    (password_digit_filter ['0', '0', '0', '0', '0', '0', '0', '0'] '2').2.1 (by decide)⟩

/-- Claim C5 (code bug): with the stored voter cap equal to 0 — for
example the factory-erased EEPROM — the percentage line of `showResults`
reaches an integer division by zero (modelled as `none`); the source has
no "insufficient data" guard. -/
theorem showResults_percentage_div_by_zero :
    showResultsPercentage emptyStore = none ∧
      readIntFromEEPROM emptyStore 200 = 0 := by
  decide

/-- Claim C6 (code bug): `setup` reads the in-memory vote count of slot
`i` as the single byte at `300 + i`, not the 16-bit little-endian value
at `300 + 2 i`; on a store whose slot-1 count is 1, setup loads 0 while
the persisted count is 1 (the enabled flags and `maxVoters`, by
contrast, are loaded from the documented layout). -/
theorem setup_votes_byte_read_divergence :
    setupVotes (writeIntToEEPROM (resetEEPROMStore emptyStore) 302 1) 1 = 0 ∧
      readIntFromEEPROM (writeIntToEEPROM (resetEEPROMStore emptyStore) 302 1)
        (300 + 1 * 2) = 1 ∧
      setupEnabled (writeIntToEEPROM (resetEEPROMStore emptyStore) 302 1) 1 = true ∧
      setupMaxVoters (writeIntToEEPROM (resetEEPROMStore emptyStore) 302 1) = 100 := by
  decide

theorem all_votes_count_congr (s s2 : Store)
    (h : ∀ a, 300 ≤ a → a ≤ 311 → s2 a = s a) :
    all_votes_count s2 = all_votes_count s := by
  rw [all_votes_count_eq, all_votes_count_eq,
    readInt_congr s s2 (300 + 0 * 2) (h _ (by omega) (by omega)) (h _ (by omega) (by omega)),
    readInt_congr s s2 (300 + 1 * 2) (h _ (by omega) (by omega)) (h _ (by omega) (by omega)),
    readInt_congr s s2 (300 + 2 * 2) (h _ (by omega) (by omega)) (h _ (by omega) (by omega)),
    readInt_congr s s2 (300 + 3 * 2) (h _ (by omega) (by omega)) (h _ (by omega) (by omega)),
    readInt_congr s s2 (300 + 4 * 2) (h _ (by omega) (by omega)) (h _ (by omega) (by omega)),
    readInt_congr s s2 (300 + 5 * 2) (h _ (by omega) (by omega)) (h _ (by omega) (by omega))]

/-- One iteration of the reset loop does not affect another slot's
16-bit count. -/
theorem readInt_resetIter_frame (acc : Store) (i j : Nat) (hi : i < 6) (hj : j < 6)
    (hne : j ≠ i) :
    readIntFromEEPROM (writeIntToEEPROM (EEPROMwrite acc (i + 100) 1) (300 + i * 2) 0)
        (300 + j * 2)
      = readIntFromEEPROM acc (300 + j * 2) := by
  apply readInt_congr
  · rw [writeInt_frame _ _ _ _ (by omega) (by omega), EEPROMwrite_other _ _ _ _ (by omega)]
  · rw [writeInt_frame _ _ _ _ (by omega) (by omega), EEPROMwrite_other _ _ _ _ (by omega)]

/-- One iteration of the reset loop zeroes its own slot's count. -/
theorem readInt_resetIter_same (acc : Store) (i : Nat) :
    readIntFromEEPROM (writeIntToEEPROM (EEPROMwrite acc (i + 100) 1) (300 + i * 2) 0)
        (300 + i * 2)
      = 0 :=
  readInt_writeInt_same _ _ 0 (by omega)

/-- The final cap write of `resetEEPROM` does not affect the counts. -/
theorem readInt_capWrite_frame (s1 : Store) (j : Nat) (hj : j < 6) :
    readIntFromEEPROM (writeIntToEEPROM s1 200 default_maxVoters) (300 + j * 2)
      = readIntFromEEPROM s1 (300 + j * 2) :=
  readInt_congr _ _ _ (writeInt_frame _ _ _ _ (by omega) (by omega))
    (writeInt_frame _ _ _ _ (by omega) (by omega))

theorem resetEEPROMStore_counts (s : Store) (j : Nat) (hj : j < 6) :
    readIntFromEEPROM (resetEEPROMStore s) (300 + j * 2) = 0 := by
  simp only [resetEEPROMStore, List.foldl]
  rw [readInt_capWrite_frame _ _ hj]
  rcases (by omega : j = 0 ∨ j = 1 ∨ j = 2 ∨ j = 3 ∨ j = 4 ∨ j = 5) with
    rfl | rfl | rfl | rfl | rfl | rfl
  · rw [readInt_resetIter_frame _ 5 0 (by omega) (by omega) (by omega),
      readInt_resetIter_frame _ 4 0 (by omega) (by omega) (by omega),
      readInt_resetIter_frame _ 3 0 (by omega) (by omega) (by omega),
      readInt_resetIter_frame _ 2 0 (by omega) (by omega) (by omega),
      readInt_resetIter_frame _ 1 0 (by omega) (by omega) (by omega)]
    exact readInt_resetIter_same _ 0
  · rw [readInt_resetIter_frame _ 5 1 (by omega) (by omega) (by omega),
      readInt_resetIter_frame _ 4 1 (by omega) (by omega) (by omega),
      readInt_resetIter_frame _ 3 1 (by omega) (by omega) (by omega),
      readInt_resetIter_frame _ 2 1 (by omega) (by omega) (by omega)]
    exact readInt_resetIter_same _ 1
  · rw [readInt_resetIter_frame _ 5 2 (by omega) (by omega) (by omega),
      readInt_resetIter_frame _ 4 2 (by omega) (by omega) (by omega),
      readInt_resetIter_frame _ 3 2 (by omega) (by omega) (by omega)]
    exact readInt_resetIter_same _ 2
  · rw [readInt_resetIter_frame _ 5 3 (by omega) (by omega) (by omega),
      readInt_resetIter_frame _ 4 3 (by omega) (by omega) (by omega)]
    exact readInt_resetIter_same _ 3
  · rw [readInt_resetIter_frame _ 5 4 (by omega) (by omega) (by omega)]
    exact readInt_resetIter_same _ 4
  · exact readInt_resetIter_same _ 5

theorem resetEEPROMStore_cap (s : Store) :
    readIntFromEEPROM (resetEEPROMStore s) 200 = 100 :=
  readInt_writeInt_same _ 200 default_maxVoters (by norm_num [default_maxVoters])

theorem resetEEPROMStore_sum (s : Store) :
    all_votes_count (resetEEPROMStore s) = 0 := by
  rw [all_votes_count_eq,
    resetEEPROMStore_counts s 0 (by omega), resetEEPROMStore_counts s 1 (by omega),
    resetEEPROMStore_counts s 2 (by omega), resetEEPROMStore_counts s 3 (by omega),
    resetEEPROMStore_counts s 4 (by omega), resetEEPROMStore_counts s 5 (by omega)]

theorem WFStore_foldl (f : Store → Nat → Store) (l : List Nat) (s : Store)
    (hf : ∀ s2 i, WFStore s2 → WFStore (f s2 i)) (hs : WFStore s) :
    WFStore (List.foldl f s l) := by
  induction l generalizing s with
  | nil => exact hs
  | cons x xs ih => exact ih _ (hf _ _ hs)

theorem WFStore_resetEEPROMStore (s : Store) (h : WFStore s) :
    WFStore (resetEEPROMStore s) :=
  WFStore_writeInt _ _ _
    (WFStore_foldl _ _ _
      (fun _ _ h2 => WFStore_writeInt _ _ _ (WFStore_EEPROMwrite _ _ _ h2)) h)

/-- The booth step either leaves the EEPROM untouched, or (on the cast
path, with a healthy EEPROM) commits exactly the incremented count of
the pressed digit while capacity remained. -/
theorem boothStep_store_cases (st : DeviceState) (key : Char) :
    (boothStep st key).state.store = st.store ∨
      ((boothStep st key).state.store
          = writeIntToEEPROM st.store (300 + (key.toNat - 49) * 2)
              (readIntFromEEPROM st.store (300 + (key.toNat - 49) * 2) + 1) ∧
        ('1' ≤ key ∧ key ≤ '6') ∧
        all_votes_count st.store < readIntFromEEPROM st.store 200) := by
  simp only [boothStep, boothStepWith]
  split_ifs with h1 h2 h3 h4 h5
  · exact Or.inr ⟨rfl, h1.1, h2.2⟩
  · exact Or.inr ⟨rfl, h1.1, h2.2⟩
  · exact Or.inl rfl
  · exact Or.inl rfl
  · exact Or.inl rfl
  · exact Or.inl rfl

/-- The enable-candidates step either leaves the store unchanged or
writes a single flag byte in the `100..105` region. -/
theorem enableCandidatesStep_store_cases (st : DeviceState) (key : Char) :
    (enableCandidatesStep st key).store = st.store ∨
      ∃ i v, i < 6 ∧ (enableCandidatesStep st key).store = EEPROMwrite st.store (100 + i) v := by
  unfold enableCandidatesStep
  split_ifs with h
  · exact Or.inr ⟨key.toNat - 49, _, by have := char_digit_bounds key h; omega, rfl⟩
  · exact Or.inl rfl

theorem capCommitValue_le (keys : List Char) : capCommitValue keys ≤ 65535 := by
  show (if 1 ≤ setMaxVotersAccumulate keys ∧ setMaxVotersAccumulate keys ≤ 65535 then
      (setMaxVotersAccumulate keys).toNat
    else 65535) ≤ 65535
  split_ifs with h
  · omega
  · omega

/-- Claim C1 counterexample: from the initial (reset) state, cast two
votes for candidate 1 (with an unlock in between), power-cycle back to
the menus, then have the admin commit a voter cap of 1: the reachable final state has six persisted
counts summing to 2 while `maxVoters` is 1, violating
`totalVotesCast ≤ maxVoters`. -/
theorem totalVotes_cap_violation :
    ReachableState (runOps initState
        [.boothKey '1', .boothKey '*', .boothKey '1', .powerCycle, .setCapKeys ['1']]) ∧
      all_votes_count (runOps initState
        [.boothKey '1', .boothKey '*', .boothKey '1', .powerCycle, .setCapKeys ['1']]).store = 2 ∧
      readIntFromEEPROM (runOps initState
        [.boothKey '1', .boothKey '*', .boothKey '1', .powerCycle, .setCapKeys ['1']]).store 200 = 1 ∧
      ¬ (all_votes_count (runOps initState
            [.boothKey '1', .boothKey '*', .boothKey '1', .powerCycle, .setCapKeys ['1']]).store
          ≤ readIntFromEEPROM (runOps initState
            [.boothKey '1', .boothKey '*', .boothKey '1', .powerCycle, .setCapKeys ['1']]).store 200) :=
  ⟨⟨_, rfl⟩, by decide, by decide, by decide⟩

/-- Claim C1 as amended: `0 ≤ totalVotesCast` always holds, and
`totalVotesCast ≤ maxVoters` is preserved by every operation except a
Set-Voter-Cap commit whose committed value undercuts the current total
(and is established outright by Reset); Set-Voter-Cap preserves it
exactly when the committed cap is at least the current total. -/
theorem totalVotes_cap_invariant_amended (st : DeviceState) (op : DeviceOp)
    (hWF : WFStore st.store)
    (hinv : all_votes_count st.store ≤ readIntFromEEPROM st.store 200)
    (hcap : ∀ keys, op = .setCapKeys keys →
      all_votes_count st.store ≤ capCommitValue keys) :
    (0 ≤ all_votes_count (applyOp st op).store ∧
        all_votes_count (applyOp st op).store
          ≤ readIntFromEEPROM (applyOp st op).store 200) ∧
      WFStore (applyOp st op).store := by
  match op with
  | .boothKey key =>
    simp only [applyOp]
    rcases boothStep_store_cases st key with hsame | ⟨heq, hk, hcap2⟩
    · rw [hsame]
      exact ⟨⟨Nat.zero_le _, hinv⟩, hWF⟩
    · rw [heq]
      have hidx : key.toNat - 49 < 6 := by
        have := char_digit_bounds key hk
        omega
      have hc_le := readInt_le_all_votes st.store _ hidx
      have hv : readIntFromEEPROM st.store (300 + (key.toNat - 49) * 2) + 1 < 65536 := by
        have h2 : readIntFromEEPROM st.store 200 < 65536 :=
          readInt_lt _ _ (hWF 200 (by omega)) (hWF 201 (by omega))
        omega
      have hsum := all_votes_count_writeInt st.store _ _ hidx hv
      have hcapframe :
          readIntFromEEPROM (writeIntToEEPROM st.store (300 + (key.toNat - 49) * 2)
              (readIntFromEEPROM st.store (300 + (key.toNat - 49) * 2) + 1)) 200
            = readIntFromEEPROM st.store 200 :=
        readInt_congr _ _ _ (writeInt_frame _ _ _ _ (by omega) (by omega))
          (writeInt_frame _ _ _ _ (by omega) (by omega))
      rw [hcapframe]
      exact ⟨⟨Nat.zero_le _, by omega⟩, WFStore_writeInt _ _ _ hWF⟩
  | .adminToggleKey key =>
    rcases enableCandidatesStep_store_cases st key with hsame | ⟨i, v, hi, heq⟩
    · have heq2 : (applyOp st (DeviceOp.adminToggleKey key)).store = st.store := hsame
      rw [heq2]
      exact ⟨⟨Nat.zero_le _, hinv⟩, hWF⟩
    · have heq2 : (applyOp st (DeviceOp.adminToggleKey key)).store
          = EEPROMwrite st.store (100 + i) v := heq
      rw [heq2]
      have hsum : all_votes_count (EEPROMwrite st.store (100 + i) v)
          = all_votes_count st.store :=
        all_votes_count_congr st.store (EEPROMwrite st.store (100 + i) v)
          (fun a h1 h2 => EEPROMwrite_other _ _ _ _ (by omega))
      have hcapf : readIntFromEEPROM (EEPROMwrite st.store (100 + i) v) 200
          = readIntFromEEPROM st.store 200 :=
        readInt_congr _ _ _ (EEPROMwrite_other _ _ _ _ (by omega))
          (EEPROMwrite_other _ _ _ _ (by omega))
      rw [hsum, hcapf]
      exact ⟨⟨Nat.zero_le _, hinv⟩, WFStore_EEPROMwrite _ _ _ hWF⟩
  | .setCapKeys keys =>
    have heq : (applyOp st (DeviceOp.setCapKeys keys)).store
        = writeIntToEEPROM st.store 200 (capCommitValue keys) := rfl
    rw [heq]
    have hle := capCommitValue_le keys
    have hread := readInt_writeInt_same st.store 200 (capCommitValue keys) (by omega)
    have hsum : all_votes_count (writeIntToEEPROM st.store 200 (capCommitValue keys))
        = all_votes_count st.store :=
      all_votes_count_congr st.store (writeIntToEEPROM st.store 200 (capCommitValue keys))
        (fun a h1 h2 => writeInt_frame _ _ _ _ (by omega) (by omega))
    rw [hsum, hread]
    exact ⟨⟨Nat.zero_le _, hcap keys rfl⟩, WFStore_writeInt _ _ _ hWF⟩
  | .resetOp =>
    have heq : (applyOp st DeviceOp.resetOp).store = resetEEPROMStore st.store := rfl
    rw [heq, resetEEPROMStore_sum, resetEEPROMStore_cap]
    exact ⟨⟨Nat.zero_le _, by omega⟩, WFStore_resetEEPROMStore _ hWF⟩
  | .powerCycle =>
    exact ⟨⟨Nat.zero_le _, hinv⟩, hWF⟩

theorem totalVotes_cap_invariant_amended_witness :
    all_votes_count (applyOp initState (DeviceOp.boothKey '1')).store
      ≤ readIntFromEEPROM (applyOp initState (DeviceOp.boothKey '1')).store 200 :=
  (totalVotes_cap_invariant_amended initState (DeviceOp.boothKey '1')
    (by decide) (by decide) (fun _ h => nomatch h)).1.2

/- ### Winner computation (`showResults`) -/

theorem maxWinner_fold (c : Nat → Nat) (l : List Nat) (acc : Nat × Int) :
    (List.foldl (fun mw i => if c i > mw.1 then (c i, (i : Int)) else mw) acc l).1
        = List.foldl (fun m i => max m (c i)) acc.1 l ∧
      ((List.foldl (fun mw i => if c i > mw.1 then (c i, (i : Int)) else mw) acc l) = acc ∨
        ∃ k ∈ l,
          (List.foldl (fun mw i => if c i > mw.1 then (c i, (i : Int)) else mw) acc l)
            = (c k, (k : Int))) := by
  induction l generalizing acc with
  | nil => exact ⟨rfl, Or.inl rfl⟩
  | cons x xs ih =>
    simp only [List.foldl_cons]
    by_cases hx : c x > acc.1
    · rw [if_pos hx]
      obtain ⟨ih1, ih2⟩ := ih (c x, (x : Int))
      have hmax : max acc.1 (c x) = c x := max_eq_right (le_of_lt hx)
      refine ⟨by rw [ih1, hmax], ?_⟩
      rcases ih2 with heq | ⟨k, hk, heq⟩
      · exact Or.inr ⟨x, by simp, heq⟩
      · exact Or.inr ⟨k, by simp [hk], heq⟩
    · rw [if_neg hx]
      obtain ⟨ih1, ih2⟩ := ih acc
      have hmax : max acc.1 (c x) = acc.1 := max_eq_left (by omega)
      refine ⟨by rw [ih1, hmax], ?_⟩
      rcases ih2 with heq | ⟨k, hk, heq⟩
      · exact Or.inl heq
      · exact Or.inr ⟨k, by simp [hk], heq⟩

theorem foldl_max_bounds (c : Nat → Nat) (l : List Nat) (b : Nat) :
    b ≤ List.foldl (fun m i => max m (c i)) b l ∧
      ∀ i ∈ l, c i ≤ List.foldl (fun m i => max m (c i)) b l := by
  induction l generalizing b with
  | nil => simp
  | cons x xs ih =>
    simp only [List.foldl_cons]
    obtain ⟨h1, h2⟩ := ih (max b (c x))
    refine ⟨le_trans (le_max_left _ _) h1, ?_⟩
    intro i hi
    rcases List.mem_cons.mp hi with rfl | hmem
    · exact le_trans (le_max_right _ _) h1
    · exact h2 i hmem

theorem foldl_or_eq_true (p : Nat → Prop) [DecidablePred p] (l : List Nat) (b : Bool) :
    (List.foldl (fun acc i => if p i then true else acc) b l) = true ↔
      b = true ∨ ∃ i ∈ l, p i := by
  induction l generalizing b with
  | nil => simp
  | cons x xs ih =>
    simp only [List.foldl_cons]
    rw [ih]
    by_cases hx : p x
    · simp only [if_pos hx]
      constructor
      · intro _
        exact Or.inr ⟨x, by simp, hx⟩
      · intro _
        exact Or.inl trivial
    · simp only [if_neg hx]
      constructor
      · rintro (hb | ⟨i, hi, hpi⟩)
        · exact Or.inl hb
        · exact Or.inr ⟨i, by simp [hi], hpi⟩
      · rintro (hb | ⟨i, hi, hpi⟩)
        · exact Or.inl hb
        · rcases List.mem_cons.mp hi with rfl | hmem
          · exact absurd hpi hx
          · exact Or.inr ⟨i, hmem, hpi⟩

theorem mem_range6_list (i : Nat) : i ∈ [0, 1, 2, 3, 4, 5] ↔ i < 6 := by
  simp only [List.mem_cons, List.mem_singleton, List.not_mem_nil, or_false]
  omega

/-- Concrete tally `[3, 3, 1, 0, 0, 0]` from the spec's tie example. -/
def exampleStore1 : Store :=
  writeIntToEEPROM (writeIntToEEPROM (writeIntToEEPROM emptyStore 300 3) 302 3) 304 1

/-- Concrete tally `[5, 1, 1, 1, 1, 1]` from the spec's clear-win example. -/
def exampleStore2 : Store :=
  writeIntToEEPROM (writeIntToEEPROM (writeIntToEEPROM (writeIntToEEPROM
    (writeIntToEEPROM (writeIntToEEPROM emptyStore 300 5) 302 1) 304 1) 306 1) 308 1) 310 1

/-- Claim C10: the winner set `showResults` displays equals the set of
all candidate indices achieving the maximum of the six per-candidate
counts, and a tie is reported exactly when that set has more than one
element; in particular counts `[3,3,1,0,0,0]` give winner set `{0, 1}`
and `[5,1,1,1,1,1]` give `{0}`. -/
theorem showResults_winner_set_correct (s : Store) :
    (showResultsWinnerSet s = winnerSetSpec s ∧
        (showResultsTie s = true ↔ 1 < (winnerSetSpec s).card)) ∧
      showResultsWinnerSet exampleStore1 = ({0, 1} : Finset Nat) ∧
      showResultsWinnerSet exampleStore2 = ({0} : Finset Nat) := by
  refine ⟨?_, by decide, by decide⟩
  have hMeq : (showResultsMaxWinner s).1 = maxCountSpec s :=
    (maxWinner_fold (fun i => readIntFromEEPROM s (300 + i * 2)) [0, 1, 2, 3, 4, 5] (0, -1)).1
  have hdisj : showResultsMaxWinner s = ((0, -1) : Nat × Int) ∨
      ∃ k ∈ [0, 1, 2, 3, 4, 5],
        showResultsMaxWinner s = (readIntFromEEPROM s (300 + k * 2), (k : Int)) :=
    (maxWinner_fold (fun i => readIntFromEEPROM s (300 + i * 2)) [0, 1, 2, 3, 4, 5] (0, -1)).2
  have hbnd : ∀ i ∈ [0, 1, 2, 3, 4, 5],
      readIntFromEEPROM s (300 + i * 2) ≤ maxCountSpec s :=
    (foldl_max_bounds (fun i => readIntFromEEPROM s (300 + i * 2)) [0, 1, 2, 3, 4, 5] 0).2
  have htie0 : showResultsTie s = true ↔ (false = true ∨
      ∃ i ∈ [0, 1, 2, 3, 4, 5],
        readIntFromEEPROM s (300 + i * 2) = (showResultsMaxWinner s).1 ∧
          (i : Int) ≠ (showResultsMaxWinner s).2) :=
    foldl_or_eq_true
      (fun i => readIntFromEEPROM s (300 + i * 2) = (showResultsMaxWinner s).1 ∧
        (i : Int) ≠ (showResultsMaxWinner s).2)
      [0, 1, 2, 3, 4, 5] false
  rcases hdisj with hinit | ⟨k, hkmem, hkeq⟩
  · have hM0 : maxCountSpec s = 0 := by rw [← hMeq, hinit]
    have hall : ∀ i ∈ [0, 1, 2, 3, 4, 5], readIntFromEEPROM s (300 + i * 2) = 0 :=
      fun i hi => by have := hbnd i hi; omega
    have htieT : showResultsTie s = true := by
      refine htie0.mpr (Or.inr ⟨0, by simp, ?_, ?_⟩)
      · rw [hinit]
        exact hall 0 (by simp)
      · rw [hinit]
        decide
    have hspec : winnerSetSpec s = Finset.range 6 := by
      apply Finset.filter_true_of_mem
      intro i hi
      rw [hM0]
      exact hall i ((mem_range6_list i).mpr (Finset.mem_range.mp hi))
    constructor
    · simp only [showResultsWinnerSet]
      rw [if_pos htieT]
      apply Finset.filter_congr
      intro i _
      rw [hMeq]
    · rw [htieT, hspec, Finset.card_range]
      simp
  · have hk6 : k < 6 := (mem_range6_list k).mp hkmem
    have hwk : (showResultsMaxWinner s).2 = (k : Int) := by rw [hkeq]
    have hck : readIntFromEEPROM s (300 + k * 2) = maxCountSpec s := by
      rw [← hMeq, hkeq]
    by_cases H : ∃ j, j < 6 ∧ j ≠ k ∧ readIntFromEEPROM s (300 + j * 2) = maxCountSpec s
    · obtain ⟨j, hj6, hjk, hcj⟩ := H
      have htieT : showResultsTie s = true := by
        refine htie0.mpr (Or.inr ⟨j, (mem_range6_list j).mpr hj6, by rw [hMeq]; exact hcj, ?_⟩)
        rw [hwk]
        intro hc
        exact hjk (Int.natCast_inj.mp hc)
      constructor
      · simp only [showResultsWinnerSet]
        rw [if_pos htieT]
        apply Finset.filter_congr
        intro i _
        rw [hMeq]
      · rw [htieT]
        have hlt : 1 < (winnerSetSpec s).card := by
          apply Finset.one_lt_card.mpr
          exact ⟨j, Finset.mem_filter.mpr ⟨Finset.mem_range.mpr hj6, hcj⟩,
            k, Finset.mem_filter.mpr ⟨Finset.mem_range.mpr hk6, hck⟩, hjk⟩
        simp [hlt]
    · have htieF : showResultsTie s = false := by
        by_contra hne
        have ht : showResultsTie s = true := by
          cases h2 : showResultsTie s
          · exact absurd h2 hne
          · rfl
        rcases htie0.mp ht with hb | ⟨i, hi, hpi⟩
        · exact absurd hb (by simp)
        · apply H
          refine ⟨i, (mem_range6_list i).mp hi, ?_, by rw [← hMeq]; exact hpi.1⟩
          intro hik
          apply hpi.2
          rw [hwk, hik]
      have hspec : winnerSetSpec s = {k} := by
        apply Finset.ext
        intro i
        simp only [winnerSetSpec, Finset.mem_filter, Finset.mem_range, Finset.mem_singleton]
        constructor
        · rintro ⟨hi6, hciM⟩
          by_contra hik
          exact H ⟨i, hi6, hik, hciM⟩
        · rintro rfl
          exact ⟨hk6, hck⟩
      constructor
      · simp only [showResultsWinnerSet]
        rw [if_neg (by simp [htieF]), hspec, hwk]
        simp
      · rw [htieF, hspec, Finset.card_singleton]
        simp

end EVM
